import Mathlib

/-!
Verification of `Tools/svg_to_globe.py` (SVG to Globe format converter).

The Python source works on IEEE doubles; here every coordinate is modelled as
an exact rational (`ℚ`).  Python's `round(q, 4)` is modelled as exact
round-half-to-even at four decimal places (`round4`), and the closepath test
`math.sqrt(d2) > 0.01` is modelled by the equivalent exact comparison
`d2 > 1/10000` (both sides of the original comparison are nonnegative and
squaring is strictly monotone there).
-/

namespace SvgToGlobe

/-! ## Coordinate-system constants (source lines 22-28) -/

def SVG_WIDTH : ℚ := 4170
def SVG_HEIGHT : ℚ := 1668
def LON_RANGE : ℚ := 180
def LAT_RANGE : ℚ := 72
def INNER_SHIFT : ℚ := -69.5
def OUTER_SHIFT : ℚ := 2015.5

/-! ## Rounding -/

/-- Round a rational to the nearest integer, ties to even — the tie-breaking
rule of Python's builtin `round`. -/
def rhalf (q : ℚ) : ℤ :=
  if q - ⌊q⌋ < 1/2 then ⌊q⌋
  else if 1/2 < q - ⌊q⌋ then ⌊q⌋ + 1
  else if ⌊q⌋ % 2 = 0 then ⌊q⌋ else ⌊q⌋ + 1

/-- Model of Python `round(q, 4)`: round to four decimal places. -/
def round4 (q : ℚ) : ℚ := (rhalf (q * 10000) : ℚ) / 10000

/-! ## Coordinate transform (source lines 82-93) -/

/-- A transformed output point, `(lat, lon)` in that order, mirroring the
two-element Python list `[lat, lon]`. -/
abbrev Coord := ℚ × ℚ

/-- One cubic Bézier quadruple `[p0, p1, p2, p3]` in output coordinates. -/
abbrev Cubic := Coord × Coord × Coord × Coord

/-- `svg_to_geographic` (source lines 82-87): affine longitude, affine
latitude clamped to `[-LAT_RANGE, LAT_RANGE]`, both rounded to 4 decimals. -/
def svg_to_geographic (x y : ℚ) : Coord :=
  (round4 (max (-LAT_RANGE) (min LAT_RANGE (-(y - SVG_HEIGHT/2) * (LAT_RANGE / (SVG_HEIGHT/2))))),
   round4 ((x - SVG_WIDTH/2) * (LON_RANGE / (SVG_WIDTH/2))))

/-- `point_to_coord` (source lines 90-93): apply the horizontal shift then
project. -/
def point_to_coord (x y shift : ℚ) : Coord :=
  svg_to_geographic (x + shift) y

/-! ## Command parser (source lines 62-79)

`parse_path_commands` tokenizes with the regex
`([MCmcLlHhVvZzSsQqTtAa])([^MCmcLlHhVvZzSsQqTtAa]*)` and then extracts
numbers from each argument block with the regex `-?\d+\.?\d*`. -/

/-- The command-letter character class of the tokenizing regex. -/
def isCmdLetter (c : Char) : Bool :=
  ("MCmcLlHhVvZzSsQqTtAa".toList).contains c

/-- Tokenizer: chars before the first command letter are skipped (the regex
finds no match there); each command letter captures the following run of
non-letter characters as its argument block. -/
def tokAux : List Char → Option (Char × List Char) → List (Char × List Char)
  | [], none => []
  | [], some (c, acc) => [(c, acc.reverse)]
  | ch :: rest, none =>
      if isCmdLetter ch then tokAux rest (some (ch, [])) else tokAux rest none
  | ch :: rest, some (c, acc) =>
      if isCmdLetter ch then (c, acc.reverse) :: tokAux rest (some (ch, []))
      else tokAux rest (some (c, ch :: acc))

/-- Value of a digit run, most significant first. -/
def digitsVal (ds : List Char) : ℕ :=
  ds.foldl (fun n d => 10 * n + (d.toNat - 48)) 0

/-- Value of a matched numeric token: optional minus sign, integer digits,
optional dot and fractional digits (possibly empty, as in `"5."`). -/
def numVal (neg : Bool) (intPart fracPart : List Char) : ℚ :=
  let v : ℚ := (digitsVal intPart : ℚ) + (digitsVal fracPart : ℚ) / (10 ^ fracPart.length : ℚ)
  if neg then -v else v

/-- Greedy match of the number regex `-?\d+\.?\d*` at the head of the input;
returns the value and the unconsumed rest, or `none` when the regex does not
match at this position (then the scan advances one character). -/
def matchNum (cs : List Char) : Option (ℚ × List Char) :=
  let start := match cs with
    | c :: t => if c = '-' then (true, t) else (false, c :: t)
    | [] => (false, [])
  let d1 := start.2.takeWhile (fun c => c.isDigit)
  let cs2 := start.2.dropWhile (fun c => c.isDigit)
  if d1 = [] then none
  else
    match cs2 with
    | c :: t =>
        if c = '.' then
          some (numVal start.1 d1 (t.takeWhile (fun d => d.isDigit)),
                t.dropWhile (fun d => d.isDigit))
        else some (numVal start.1 d1 [], c :: t)
    | [] => some (numVal start.1 d1 [], [])

/-- Non-overlapping left-to-right scan for number tokens (`re.findall`).
Each step consumes at least one character, so fuel equal to the input length
is sufficient and the recursion is structural on the fuel. -/
def findNumsAux : ℕ → List Char → List ℚ
  | 0, _ => []
  | _, [] => []
  | fuel + 1, c :: cs =>
      match matchNum (c :: cs) with
      | some (q, rest) => q :: findNumsAux fuel rest
      | none => findNumsAux fuel cs

def findNums (cs : List Char) : List ℚ := findNumsAux cs.length cs

/-- Python `str.strip` on a character list: drop leading and trailing
whitespace. -/
def stripWS (cs : List Char) : List Char :=
  ((cs.dropWhile (fun c => c.isWhitespace)).reverse.dropWhile
    (fun c => c.isWhitespace)).reverse

/-- `parse_path_commands` (source lines 62-79). -/
def parse_path_commands (d : String) : List (Char × List ℚ) :=
  (tokAux d.toList none).map fun p =>
    let s := stripWS p.2
    (p.1, if s = [] then [] else findNums s)

/-! ## Segment builder (source lines 96-238) -/

/-- `PathSegment` (source lines 96-102).  In the source `start_point` and
`current_point` are `Optional` but every construction site sets both
immediately, so they are modelled as plain fields; the Python truthiness
guard on them in the closepath branch is therefore equivalent to the
current-segment-exists guard. -/
structure PathSegment where
  cubic_segments : List Cubic
  is_closed : Bool
  start_point : Coord
  current_point : Coord
deriving DecidableEq

/-- The loop state of `extract_path_segments`: finalized segments, the
segment under construction (if any) and the raw cursor `current_pos`. -/
structure BState where
  segments : List PathSegment
  current : Option PathSegment
  pos : ℚ × ℚ
deriving DecidableEq

def initState : BState := ⟨[], none, (0, 0)⟩

/-- Number of curves accumulated in the segment under construction. -/
def curveCount (st : BState) : ℕ :=
  match st.current with
  | some seg => seg.cubic_segments.length
  | none => 0

/-- Complete coordinate pairs of a flat list; a trailing unpaired number is
dropped, exactly as `range(0, len(coords)-1, 2)` only visits full pairs. -/
def pairs : List ℚ → List (ℚ × ℚ)
  | a :: b :: t => (a, b) :: pairs t
  | [] => []
  | [_] => []

/-- Complete groups of six, as visited by `range(0, len(coords)-5, 6)`. -/
def hexes : List ℚ → List (ℚ × ℚ × ℚ × ℚ × ℚ × ℚ)
  | a :: b :: c :: d :: e :: f :: t => (a, b, c, d, e, f) :: hexes t
  | [] => []
  | [_] => []
  | [_, _] => []
  | [_, _, _] => []
  | [_, _, _, _] => []
  | [_, _, _, _, _] => []

/-- Straight-line cubic: control points at the 1/3 and 2/3 linear
interpolants between the (already transformed) endpoints. -/
def lerpCubic (p0 p3 : Coord) : Cubic :=
  (p0,
   (p0.1 + (p3.1 - p0.1) / 3, p0.2 + (p3.2 - p0.2) / 3),
   (p0.1 + (p3.1 - p0.1) * 2 / 3, p0.2 + (p3.2 - p0.2) * 2 / 3),
   p3)

/-- The `L` loop body (source lines 182-189), iterated over absolute target
pairs; also used for the implicit line-to expansion in `M` (lines 124-132). -/
def runLines (shift : ℚ) (pos : ℚ × ℚ) (seg : PathSegment) :
    List (ℚ × ℚ) → (ℚ × ℚ) × PathSegment
  | [] => (pos, seg)
  | t :: ts =>
      runLines shift t
        { seg with
            cubic_segments := seg.cubic_segments ++
              [lerpCubic (point_to_coord pos.1 pos.2 shift) (point_to_coord t.1 t.2 shift)],
            current_point := point_to_coord t.1 t.2 shift } ts

/-- The `l` loop body (source lines 197-204): targets are offsets from the
evolving cursor. -/
def runLinesRel (shift : ℚ) (pos : ℚ × ℚ) (seg : PathSegment) :
    List (ℚ × ℚ) → (ℚ × ℚ) × PathSegment
  | [] => (pos, seg)
  | (dx, dy) :: ts =>
      runLinesRel shift (pos.1 + dx, pos.2 + dy)
        { seg with
            cubic_segments := seg.cubic_segments ++
              [lerpCubic (point_to_coord pos.1 pos.2 shift)
                (point_to_coord (pos.1 + dx) (pos.2 + dy) shift)],
            current_point := point_to_coord (pos.1 + dx) (pos.2 + dy) shift } ts

/-- The `C` loop body (source lines 150-158): each group of six numbers is
one absolute cubic curve. -/
def runCurves (shift : ℚ) (pos : ℚ × ℚ) (seg : PathSegment) :
    List (ℚ × ℚ × ℚ × ℚ × ℚ × ℚ) → (ℚ × ℚ) × PathSegment
  | [] => (pos, seg)
  | (x1, y1, x2, y2, x3, y3) :: gs =>
      runCurves shift (x3, y3)
        { seg with
            cubic_segments := seg.cubic_segments ++
              [(point_to_coord pos.1 pos.2 shift,
                point_to_coord x1 y1 shift,
                point_to_coord x2 y2 shift,
                point_to_coord x3 y3 shift)],
            current_point := point_to_coord x3 y3 shift } gs

/-- The `c` loop body (source lines 166-174): all six numbers are offsets
from the cursor at the start of the group. -/
def runCurvesRel (shift : ℚ) (pos : ℚ × ℚ) (seg : PathSegment) :
    List (ℚ × ℚ × ℚ × ℚ × ℚ × ℚ) → (ℚ × ℚ) × PathSegment
  | [] => (pos, seg)
  | (x1, y1, x2, y2, x3, y3) :: gs =>
      runCurvesRel shift (pos.1 + x3, pos.2 + y3)
        { seg with
            cubic_segments := seg.cubic_segments ++
              [(point_to_coord pos.1 pos.2 shift,
                point_to_coord (pos.1 + x1) (pos.2 + y1) shift,
                point_to_coord (pos.1 + x2) (pos.2 + y2) shift,
                point_to_coord (pos.1 + x3) (pos.2 + y3) shift)],
            current_point := point_to_coord (pos.1 + x3) (pos.2 + y3) shift } gs

/-- Implicit segment open used by `C/c/L/l` (e.g. source lines 145-148):
when no segment is under construction, open one starting at the cursor. -/
def ensureSegment (shift : ℚ) (pos : ℚ × ℚ) : Option PathSegment → PathSegment
  | some seg => seg
  | none =>
      ⟨[], false, point_to_coord pos.1 pos.2 shift, point_to_coord pos.1 pos.2 shift⟩

/-- Finalize on moveto (source lines 115-116 and 136-137): the current
segment is appended to the emitted list only if it accumulated a curve. -/
def finalizeInto (st : BState) : List PathSegment :=
  match st.current with
  | some seg =>
      if 0 < seg.cubic_segments.length then st.segments ++ [seg] else st.segments
  | none => st.segments

/-- The `Z`/`z` branch (source lines 206-217).  The source compares
`sqrt(d2) > 0.01`; both sides are nonnegative so this is `d2 > 1/10000`. -/
def closeStep (st : BState) : BState :=
  match st.current with
  | some seg =>
      let d2 := (seg.start_point.1 - seg.current_point.1) ^ 2 +
        (seg.start_point.2 - seg.current_point.2) ^ 2
      let seg2 := if 1/10000 < d2 then
          { seg with
              cubic_segments := seg.cubic_segments ++
                [lerpCubic seg.current_point seg.start_point] }
        else seg
      ⟨st.segments, some { seg2 with is_closed := true }, st.pos⟩
  | none => st

/-- One iteration of the command loop of `extract_path_segments`
(source lines 112-217), one `if`/`elif` arm per opcode. -/
def step (shift : ℚ) (st : BState) (cmd : Char × List ℚ) : BState :=
  if cmd.1 = 'M' then
    match cmd.2 with
    | x :: y :: rest =>
        let sp := point_to_coord x y shift
        let r := runLines shift (x, y) ⟨[], false, sp, sp⟩ (pairs rest)
        ⟨finalizeInto st, some r.2, r.1⟩
    | _ => st
  else if cmd.1 = 'm' then
    match cmd.2 with
    | dx :: dy :: _ =>
        let px := st.pos.1 + dx
        let py := st.pos.2 + dy
        let sp := point_to_coord px py shift
        ⟨finalizeInto st, some ⟨[], false, sp, sp⟩, (px, py)⟩
    | _ => st
  else if cmd.1 = 'C' then
    let r := runCurves shift st.pos (ensureSegment shift st.pos st.current) (hexes cmd.2)
    ⟨st.segments, some r.2, r.1⟩
  else if cmd.1 = 'c' then
    let r := runCurvesRel shift st.pos (ensureSegment shift st.pos st.current) (hexes cmd.2)
    ⟨st.segments, some r.2, r.1⟩
  else if cmd.1 = 'L' then
    let r := runLines shift st.pos (ensureSegment shift st.pos st.current) (pairs cmd.2)
    ⟨st.segments, some r.2, r.1⟩
  else if cmd.1 = 'l' then
    let r := runLinesRel shift st.pos (ensureSegment shift st.pos st.current) (pairs cmd.2)
    ⟨st.segments, some r.2, r.1⟩
  else if cmd.1 = 'Z' ∨ cmd.1 = 'z' then
    closeStep st
  else st

/-- One emitted path dictionary (source lines 226-235), restricted to the
geometric content: the random `uuid4` identifier and the constant
`pathType`/`style` fields are not modelled. -/
structure OutPath where
  cubicSegments : List Cubic
  isClosed : Bool
deriving DecidableEq

/-- The command loop, end-of-input flush (source lines 219-220) and output
conversion with its zero-curve filter (source lines 223-236). -/
def extractFromCommands (commands : List (Char × List ℚ)) (shift : ℚ) : List OutPath :=
  let final := commands.foldl (step shift) initState
  let segs := final.segments ++
    (match final.current with
     | some seg => if 0 < seg.cubic_segments.length then [seg] else []
     | none => [])
  segs.filterMap fun seg =>
    if 0 < seg.cubic_segments.length then
      some ⟨seg.cubic_segments, seg.is_closed⟩
    else none

/-- `extract_path_segments` (source lines 105-238). -/
def extract_path_segments (path_data : String) (shift : ℚ) : List OutPath :=
  extractFromCommands (parse_path_commands path_data) shift

/-! ## Helper lemmas -/

theorem pairs_length : ∀ l : List ℚ, (pairs l).length = l.length / 2
  | [] => rfl
  | [_] => by simp [pairs]
  | _ :: _ :: t => by
      simp only [pairs, List.length_cons, List.length_nil, pairs_length t]
      omega

theorem hexes_length : ∀ l : List ℚ, (hexes l).length = l.length / 6
  | [] => rfl
  | [_] => by simp [hexes]
  | [_, _] => by simp [hexes]
  | [_, _, _] => by simp [hexes]
  | [_, _, _, _] => by simp [hexes]
  | [_, _, _, _, _] => by simp [hexes]
  | _ :: _ :: _ :: _ :: _ :: _ :: t => by
      simp only [hexes, List.length_cons, List.length_nil, hexes_length t]
      omega

theorem runLines_snd_length (shift : ℚ) (ts : List (ℚ × ℚ)) :
    ∀ (pos : ℚ × ℚ) (seg : PathSegment),
      ((runLines shift pos seg ts).2).cubic_segments.length =
        seg.cubic_segments.length + ts.length := by
  induction ts with
  | nil => intro pos seg; simp [runLines]
  | cons t ts ih =>
      intro pos seg
      simp only [runLines, ih, List.length_append, List.length_cons, List.length_nil]
      omega

theorem runLinesRel_snd_length (shift : ℚ) (ts : List (ℚ × ℚ)) :
    ∀ (pos : ℚ × ℚ) (seg : PathSegment),
      ((runLinesRel shift pos seg ts).2).cubic_segments.length =
        seg.cubic_segments.length + ts.length := by
  induction ts with
  | nil => intro pos seg; simp [runLinesRel]
  | cons t ts ih =>
      intro pos seg
      obtain ⟨dx, dy⟩ := t
      simp only [runLinesRel, ih, List.length_append, List.length_cons, List.length_nil]
      omega

theorem runCurves_snd_length (shift : ℚ) (gs : List (ℚ × ℚ × ℚ × ℚ × ℚ × ℚ)) :
    ∀ (pos : ℚ × ℚ) (seg : PathSegment),
      ((runCurves shift pos seg gs).2).cubic_segments.length =
        seg.cubic_segments.length + gs.length := by
  induction gs with
  | nil => intro pos seg; simp [runCurves]
  | cons g gs ih =>
      intro pos seg
      obtain ⟨x1, y1, x2, y2, x3, y3⟩ := g
      simp only [runCurves, ih, List.length_append, List.length_cons, List.length_nil]
      omega

theorem runCurvesRel_snd_length (shift : ℚ) (gs : List (ℚ × ℚ × ℚ × ℚ × ℚ × ℚ)) :
    ∀ (pos : ℚ × ℚ) (seg : PathSegment),
      ((runCurvesRel shift pos seg gs).2).cubic_segments.length =
        seg.cubic_segments.length + gs.length := by
  induction gs with
  | nil => intro pos seg; simp [runCurvesRel]
  | cons g gs ih =>
      intro pos seg
      obtain ⟨x1, y1, x2, y2, x3, y3⟩ := g
      simp only [runCurvesRel, ih, List.length_append, List.length_cons, List.length_nil]
      omega

theorem ensureSegment_length (shift : ℚ) (st : BState) :
    (ensureSegment shift st.pos st.current).cubic_segments.length = curveCount st := by
  cases hc : st.current <;> simp [ensureSegment, curveCount, hc]

/-! ## Rounding lemmas -/

theorem rhalf_eq_floor_or_succ (q : ℚ) : rhalf q = ⌊q⌋ ∨ rhalf q = ⌊q⌋ + 1 := by
  unfold rhalf
  split_ifs <;> simp

theorem le_rhalf (n : ℤ) (q : ℚ) (h : (n : ℚ) ≤ q) : n ≤ rhalf q := by
  have hf : n ≤ ⌊q⌋ := Int.le_floor.mpr h
  rcases rhalf_eq_floor_or_succ q with h1 | h1 <;> omega

theorem rhalf_le (n : ℤ) (q : ℚ) (h : q ≤ (n : ℚ)) : rhalf q ≤ n := by
  have hf : ⌊q⌋ ≤ n := by
    have := Int.floor_le_floor h
    simpa using this
  rcases rhalf_eq_floor_or_succ q with h1 | h1
  · omega
  · -- the `+ 1` branches only happen when the fractional part is ≥ 1/2
    have hfrac : (1 : ℚ)/2 ≤ q - ⌊q⌋ := by
      by_contra hlt
      push_neg at hlt
      unfold rhalf at h1
      rw [if_pos hlt] at h1
      omega
    have hne : ⌊q⌋ ≠ n := by
      intro he
      rw [he] at hfrac
      have : (n : ℚ) < q := by linarith
      linarith
    omega

theorem rhalf_intCast (n : ℤ) : rhalf (n : ℚ) = n := by
  unfold rhalf
  rw [Int.floor_intCast]
  norm_num

theorem le_round4 (n : ℤ) (q : ℚ) (h : (n : ℚ) ≤ q) : (n : ℚ) ≤ round4 q := by
  have h1 : ((n * 10000 : ℤ) : ℚ) ≤ q * 10000 := by push_cast; linarith
  have h2 := le_rhalf (n * 10000) (q * 10000) h1
  have h3 : ((n * 10000 : ℤ) : ℚ) ≤ ((rhalf (q * 10000) : ℤ) : ℚ) := by
    exact_mod_cast h2
  unfold round4
  rw [le_div_iff₀ (by norm_num : (0:ℚ) < 10000)]
  push_cast at h3 ⊢
  linarith

theorem round4_le (n : ℤ) (q : ℚ) (h : q ≤ (n : ℚ)) : round4 q ≤ (n : ℚ) := by
  have h1 : q * 10000 ≤ ((n * 10000 : ℤ) : ℚ) := by push_cast; linarith
  have h2 := rhalf_le (n * 10000) (q * 10000) h1
  have h3 : ((rhalf (q * 10000) : ℤ) : ℚ) ≤ ((n * 10000 : ℤ) : ℚ) := by
    exact_mod_cast h2
  unfold round4
  rw [div_le_iff₀ (by norm_num : (0:ℚ) < 10000)]
  push_cast at h3 ⊢
  linarith

theorem round4_intCast (n : ℤ) : round4 (n : ℚ) = (n : ℚ) := by
  unfold round4
  have : ((n : ℚ)) * 10000 = ((n * 10000 : ℤ) : ℚ) := by push_cast; ring
  rw [this, rhalf_intCast]
  push_cast
  field_simp

/-! ## Claim theorems -/

/-- C1 (counterexample): a line-to and a cubic-curve command whose control
points are the exact 1/3 and 2/3 raw-space interpolants of the same endpoints
do NOT always produce byte-identical cubic quadruples: from `(0,0)` to
`(3,0)` at shift `0`, the line-to interpolates the already-rounded output
longitudes (giving `-539741/3000`) while the curve command rounds the
transform of the raw interpolant (giving `-1799137/10000`). -/
theorem C1_counterexample :
    ((extract_path_segments "M0,0L3,0" 0).map fun p => p.cubicSegments) ≠
      ((extract_path_segments "M0,0C1,0 2,0 3,0" 0).map fun p => p.cubicSegments) := by
  simp +decide [extract_path_segments, extractFromCommands, parse_path_commands,
    tokAux, isCmdLetter, stripWS, findNums, findNumsAux, matchNum, numVal, digitsVal,
    step, closeStep, ensureSegment, finalizeInto, runLines, runCurves, pairs, hexes,
    initState, point_to_coord, svg_to_geographic, round4, rhalf, lerpCubic,
    SVG_WIDTH, SVG_HEIGHT, LON_RANGE, LAT_RANGE]
  norm_num [Int.fract, List.filterMap]

/-- C1 (amended): for every pair of endpoints, the line-to cubic and the
cubic-curve command with raw 1/3 and 2/3 interpolant control points produce
segments with byte-identical start points `p0` and end points `p3` and the
same closed flag, but the control points `p1, p2` may differ, because the
line-to interpolates rounded output coordinates while the curve command
rounds the transform of the raw control points. -/
theorem C1_amended_endpoints (shift x0 y0 c1x c1y c2x c2y x3 y3 : ℚ) :
    ((extractFromCommands [('M', [x0, y0]), ('L', [x3, y3])] shift).map
        fun p => p.cubicSegments.map fun q => (q.1, q.2.2.2)) =
      ((extractFromCommands [('M', [x0, y0]), ('C', [c1x, c1y, c2x, c2y, x3, y3])] shift).map
        fun p => p.cubicSegments.map fun q => (q.1, q.2.2.2)) ∧
    ((extractFromCommands [('M', [x0, y0]), ('L', [x3, y3])] shift).map fun p => p.isClosed) =
      ((extractFromCommands [('M', [x0, y0]), ('C', [c1x, c1y, c2x, c2y, x3, y3])] shift).map
        fun p => p.isClosed) :=
  ⟨rfl, rfl⟩

/-- C2: every path segment in the output of `extract_path_segments` has at
least one cubic quadruple; zero-curve segments are never emitted. -/
theorem C2_emitted_segment_nonempty (d : String) (shift : ℚ) (p : OutPath)
    (h : p ∈ extract_path_segments d shift) : 0 < p.cubicSegments.length := by
  simp only [extract_path_segments, extractFromCommands, List.mem_filterMap] at h
  obtain ⟨seg, hmem, hf⟩ := h
  by_cases hc : 0 < seg.cubic_segments.length
  · rw [if_pos hc] at hf
    cases hf
    simpa using hc
  · rw [if_neg hc] at hf
    cases hf

theorem C2_witness :
    0 < ((extract_path_segments "M0,0L100,0Z" 0).getD 0 ⟨[], true⟩).cubicSegments.length :=
  C2_emitted_segment_nonempty "M0,0L100,0Z" 0 _ (by
    simp +decide [extract_path_segments, extractFromCommands, parse_path_commands,
      tokAux, isCmdLetter, stripWS, findNums, findNumsAux, matchNum, numVal, digitsVal,
      step, closeStep, ensureSegment, finalizeInto, runLines, pairs,
      initState, point_to_coord, svg_to_geographic, round4, rhalf, lerpCubic,
      SVG_WIDTH, SVG_HEIGHT, LON_RANGE, LAT_RANGE]
    norm_num [Int.fract, List.filterMap])

/-- C3: on a `Z`/`z` command with a current segment: if the squared output
distance between start and current point exceeds `0.01 ^ 2` (i.e. the
distance exceeds `0.01`), exactly one closing linear-interpolation cubic from
the current point back to the start point is appended; otherwise no curve is
appended; the closed flag is set in both cases, and the emitted list and
cursor are untouched. -/
theorem C3_closepath (shift : ℚ) (coords : List ℚ) (st : BState) (seg : PathSegment)
    (c : Char) (hc : c = 'Z' ∨ c = 'z') (h : st.current = some seg) :
    (1/10000 < (seg.start_point.1 - seg.current_point.1) ^ 2 +
        (seg.start_point.2 - seg.current_point.2) ^ 2 →
      step shift st (c, coords) =
        ⟨st.segments,
         some { seg with
                  cubic_segments := seg.cubic_segments ++
                    [lerpCubic seg.current_point seg.start_point],
                  is_closed := true },
         st.pos⟩) ∧
    ((seg.start_point.1 - seg.current_point.1) ^ 2 +
        (seg.start_point.2 - seg.current_point.2) ^ 2 ≤ 1/10000 →
      step shift st (c, coords) = ⟨st.segments, some { seg with is_closed := true }, st.pos⟩) := by
  have hstep : step shift st (c, coords) = closeStep st := by
    rcases hc with hc | hc <;> subst hc <;> rfl
  obtain ⟨segs, cur, pos⟩ := st
  simp only at h
  subst h
  rw [hstep]
  constructor
  · intro hd
    simp only [closeStep]
    rw [if_pos hd]
  · intro hd
    simp only [closeStep]
    rw [if_neg (not_lt.mpr hd)]

theorem C3_witness :
    step 0 (step 0 initState ('M', [0, 0])) ('Z', []) =
      ⟨[], some { (⟨[], false, point_to_coord 0 0 0, point_to_coord 0 0 0⟩ : PathSegment) with
                    is_closed := true }, (0, 0)⟩ :=
  (C3_closepath 0 [] (step 0 initState ('M', [0, 0]))
      ⟨[], false, point_to_coord 0 0 0, point_to_coord 0 0 0⟩ 'Z' (Or.inl rfl) rfl).2
    (by norm_num)

/-- C4: the output latitude is always clamped to `[-72, 72]` and a raw
latitude outside that interval yields exactly the boundary value; the output
longitude is exactly the rounded affine formula, never clamped. -/
theorem C4_latitude_clamped (x y : ℚ) :
    (-72 : ℚ) ≤ (svg_to_geographic x y).1 ∧ (svg_to_geographic x y).1 ≤ 72 ∧
    (72 < -(y - SVG_HEIGHT/2) * (LAT_RANGE / (SVG_HEIGHT/2)) →
      (svg_to_geographic x y).1 = 72) ∧
    (-(y - SVG_HEIGHT/2) * (LAT_RANGE / (SVG_HEIGHT/2)) < -72 →
      (svg_to_geographic x y).1 = -72) ∧
    (svg_to_geographic x y).2 = round4 ((x - SVG_WIDTH/2) * (LON_RANGE / (SVG_WIDTH/2))) := by
  have hLR : LAT_RANGE = 72 := rfl
  have h1 : (svg_to_geographic x y).1 =
      round4 (max (-LAT_RANGE)
        (min LAT_RANGE (-(y - SVG_HEIGHT/2) * (LAT_RANGE / (SVG_HEIGHT/2))))) := rfl
  have h72 : round4 (72 : ℚ) = 72 := by
    have := round4_intCast 72
    push_cast at this
    exact this
  have hm72 : round4 (-72 : ℚ) = -72 := by
    have := round4_intCast (-72)
    push_cast at this
    exact this
  refine ⟨?_, ?_, ?_, ?_, rfl⟩
  · rw [h1]
    have hb : ((-72 : ℤ) : ℚ) ≤ max (-LAT_RANGE)
        (min LAT_RANGE (-(y - SVG_HEIGHT/2) * (LAT_RANGE / (SVG_HEIGHT/2)))) := by
      rw [hLR]
      push_cast
      exact le_max_left _ _
    have h2 := le_round4 (-72) _ hb
    push_cast at h2
    exact h2
  · rw [h1]
    have hb : max (-LAT_RANGE)
        (min LAT_RANGE (-(y - SVG_HEIGHT/2) * (LAT_RANGE / (SVG_HEIGHT/2)))) ≤
        ((72 : ℤ) : ℚ) := by
      rw [hLR]
      push_cast
      exact max_le (by norm_num) (min_le_left _ _)
    have h2 := round4_le 72 _ hb
    push_cast at h2
    exact h2
  · intro hgt
    rw [h1, hLR]
    rw [hLR] at hgt
    rw [min_eq_left hgt.le, max_eq_right (by norm_num : (-(72:ℚ)) ≤ 72)]
    exact h72
  · intro hlt
    rw [h1, hLR]
    rw [hLR] at hlt
    have hle : -(y - SVG_HEIGHT/2) * (72 / (SVG_HEIGHT/2)) ≤ 72 := by linarith
    rw [min_eq_right hle, max_eq_left hlt.le]
    exact hm72

theorem C4_witness : (svg_to_geographic 0 (-2000)).1 = 72 :=
  (C4_latitude_clamped 0 (-2000)).2.2.1 (by norm_num [SVG_HEIGHT, LAT_RANGE])

/-- C5: Shift equivalence.  For every raw x-coordinate (and y-coordinate),
converting the point with `INNER_SHIFT` produces the same output longitude as
converting the point with raw x replaced by `x + INNER_SHIFT - OUTER_SHIFT`
under `OUTER_SHIFT`. -/
theorem C5_shift_equivalence (x y : ℚ) :
    (point_to_coord x y INNER_SHIFT).2 =
      (point_to_coord (x + INNER_SHIFT - OUTER_SHIFT) y OUTER_SHIFT).2 := by
  unfold point_to_coord svg_to_geographic
  simp only
  congr 1
  ring

/-- C6: moveto handling is asymmetric.  For an absolute `M` every coordinate
pair after the first yields one implicit line-to cubic (one curve per extra
pair, incomplete trailing pair dropped); for a relative `m` the extra pairs
produce no curves and do not move the cursor, which lands on the offset of
the first pair only. -/
theorem C6_moveto_asymmetry (shift x0 y0 : ℚ) (rest : List ℚ) (st : BState) :
    ((step shift st ('M', x0 :: y0 :: rest)).current.map
        fun s => s.cubic_segments.length) = some (rest.length / 2) ∧
    (step shift st ('m', x0 :: y0 :: rest)).current =
      some ⟨[], false, point_to_coord (st.pos.1 + x0) (st.pos.2 + y0) shift,
            point_to_coord (st.pos.1 + x0) (st.pos.2 + y0) shift⟩ ∧
    (step shift st ('m', x0 :: y0 :: rest)).pos = (st.pos.1 + x0, st.pos.2 + y0) := by
  refine ⟨?_, rfl, rfl⟩
  have h1 : (step shift st ('M', x0 :: y0 :: rest)).current =
      some (runLines shift (x0, y0)
        ⟨[], false, point_to_coord x0 y0 shift, point_to_coord x0 y0 shift⟩
        (pairs rest)).2 := rfl
  rw [h1]
  simp only [Option.map_some']
  rw [runLines_snd_length, pairs_length]
  simp

/-- C7: the single path string `"M0,0L100,0Z"` at shift `0` yields exactly
one emitted path segment, whose cubic list has exactly 2 quadruples (the
line-to cubic and the synthesized closing cubic, the post-transform distance
exceeding 0.01) and whose closed flag is true. -/
theorem C7_example_path :
    (extract_path_segments "M0,0L100,0Z" 0).map
        (fun p => (p.cubicSegments.length, p.isClosed)) = [(2, true)] := by
  simp +decide [extract_path_segments, extractFromCommands, parse_path_commands,
    tokAux, isCmdLetter, stripWS, findNums, findNumsAux, matchNum, numVal, digitsVal,
    step, closeStep, ensureSegment, finalizeInto, runLines, pairs,
    initState, point_to_coord, svg_to_geographic, round4, rhalf, lerpCubic,
    SVG_WIDTH, SVG_HEIGHT, LON_RANGE, LAT_RANGE]
  norm_num [Int.fract, List.filterMap]

/-- C8: opcodes with no transition in the segment builder (`S,s,Q,q,T,t,A,a`
and also `H,h,V,v`) leave the whole state — emitted segments, current
segment, cursor — unchanged and produce no geometry. -/
theorem C8_no_transition_opcodes (shift : ℚ) (st : BState) (c : Char) (coords : List ℚ)
    (h : c ∈ (['S', 's', 'Q', 'q', 'T', 't', 'A', 'a', 'H', 'h', 'V', 'v'] : List Char)) :
    step shift st (c, coords) = st := by
  fin_cases h <;> rfl

theorem C8_witness : step 0 initState ('S', [1, 2, 3]) = initState :=
  C8_no_transition_opcodes 0 initState 'S' [1, 2, 3] (by decide)

/-- C9: the segment builder is total and truncating: `M`/`m` with fewer than
two arguments is a complete no-op, and each drawing opcode consumes only the
complete argument groups (six numbers per `C`/`c` curve, a pair per `L`/`l`
line and per extra `M` pair), silently ignoring a trailing partial group. -/
theorem C9_totality_truncation (shift : ℚ) (st : BState) (coords : List ℚ) :
    (coords.length < 2 →
      step shift st ('M', coords) = st ∧ step shift st ('m', coords) = st) ∧
    curveCount (step shift st ('C', coords)) = curveCount st + coords.length / 6 ∧
    curveCount (step shift st ('c', coords)) = curveCount st + coords.length / 6 ∧
    curveCount (step shift st ('L', coords)) = curveCount st + coords.length / 2 ∧
    curveCount (step shift st ('l', coords)) = curveCount st + coords.length / 2 ∧
    (2 ≤ coords.length →
      curveCount (step shift st ('M', coords)) = (coords.length - 2) / 2) := by
  refine ⟨?_, ?_, ?_, ?_, ?_, ?_⟩
  · intro hlen
    match coords, hlen with
    | [], _ => exact ⟨rfl, rfl⟩
    | [a], _ => exact ⟨rfl, rfl⟩
  · have h1 : curveCount (step shift st ('C', coords)) =
        ((runCurves shift st.pos (ensureSegment shift st.pos st.current)
          (hexes coords)).2).cubic_segments.length := rfl
    rw [h1, runCurves_snd_length, ensureSegment_length, hexes_length]
  · have h1 : curveCount (step shift st ('c', coords)) =
        ((runCurvesRel shift st.pos (ensureSegment shift st.pos st.current)
          (hexes coords)).2).cubic_segments.length := rfl
    rw [h1, runCurvesRel_snd_length, ensureSegment_length, hexes_length]
  · have h1 : curveCount (step shift st ('L', coords)) =
        ((runLines shift st.pos (ensureSegment shift st.pos st.current)
          (pairs coords)).2).cubic_segments.length := rfl
    rw [h1, runLines_snd_length, ensureSegment_length, pairs_length]
  · have h1 : curveCount (step shift st ('l', coords)) =
        ((runLinesRel shift st.pos (ensureSegment shift st.pos st.current)
          (pairs coords)).2).cubic_segments.length := rfl
    rw [h1, runLinesRel_snd_length, ensureSegment_length, pairs_length]
  · intro hlen
    match coords, hlen with
    | x0 :: y0 :: rest, _ =>
      have h1 : curveCount (step shift st ('M', x0 :: y0 :: rest)) =
          ((runLines shift (x0, y0)
            ⟨[], false, point_to_coord x0 y0 shift, point_to_coord x0 y0 shift⟩
            (pairs rest)).2).cubic_segments.length := rfl
      rw [h1, runLines_snd_length, pairs_length]
      simp

theorem C9_witness : step 0 initState ('M', [5]) = initState :=
  ((C9_totality_truncation 0 initState [5]).1 (by norm_num)).1

/-- C10: a closepath does not move the raw cursor and does not emit the
segment: after `Z` the cursor, the emitted list and the segment (now flagged
closed) are retained, and a following `L` appends its cubic — starting from
the transform of the cursor as it was before the close — to that same
already-closed segment. -/
theorem C10_close_keeps_cursor (shift x y : ℚ) (zc : List ℚ) (st : BState)
    (seg : PathSegment) (h : st.current = some seg) :
    (step shift st ('Z', zc)).pos = st.pos ∧
    (step shift st ('Z', zc)).segments = st.segments ∧
    ∃ seg1 : PathSegment,
      (step shift st ('Z', zc)).current = some seg1 ∧
      seg1.is_closed = true ∧
      step shift (step shift st ('Z', zc)) ('L', [x, y]) =
        ⟨st.segments,
         some { seg1 with
                  cubic_segments := seg1.cubic_segments ++
                    [lerpCubic (point_to_coord st.pos.1 st.pos.2 shift)
                      (point_to_coord x y shift)],
                  current_point := point_to_coord x y shift },
         (x, y)⟩ := by
  obtain ⟨segs, cur, pos⟩ := st
  simp only at h
  subst h
  refine ⟨rfl, rfl, ?_⟩
  refine ⟨_, rfl, rfl, ?_⟩
  rfl

theorem C10_witness :
    (step 0 (step 0 initState ('M', [0, 0])) ('Z', [])).pos =
      (step 0 initState ('M', [0, 0])).pos :=
  (C10_close_keeps_cursor 0 5 5 [] (step 0 initState ('M', [0, 0]))
      ⟨[], false, point_to_coord 0 0 0, point_to_coord 0 0 0⟩ rfl).1

end SvgToGlobe
